import Mathlib

/-!
Verification of the excel fuzzy-matching pipeline core
(`src/fuzzy_matcher/scorer.py` and `src/fuzzy_matcher/matcher.py`).

Conventions of the embedding:
* Python `float` amounts and scores are modelled as rationals (`ℚ`);
  the claims under study are about the algebraic structure of the
  computation, not about binary floating-point rounding.
* `pandas.DataFrame` rows are modelled as Lean structures and data frames
  as lists of rows, iterated in row order (as `iterrows` does for the
  default range index).
* Python methods that mutate `self` are modelled in state-passing style:
  they take the object and return the (possibly updated) object next to
  their result.
* `\d` in the extraction regex is modelled as an ASCII decimal digit
  (`Char.isDigit`); the data handled by the pipeline is ASCII.
-/

namespace FuzzyPipeline

/-! ### Number extraction (`scorer.py`, `extract_numbers`, lines 26-41)

The Python code runs `re.findall(r'-?\d+\.?\d*', text)` and converts each
match with `float`.  `findall` performs a leftmost scan: at each position it
tries to match greedily; on success it resumes right after the match,
otherwise it advances one character.  A match is an optional minus sign, one
or more digits, an optional dot and further optional digits.  The Python
filter `if m and m != '-'` is vacuous because every regex match contains at
least one digit; the embedding therefore produces the values directly. -/

/-- Value of a digit run, most significant first (`int("150")`). -/
def digitsToNat (ds : List Char) : Nat :=
  ds.foldl (fun n c => 10 * n + (c.toNat - Char.toNat '0')) 0

/-- The rational denoted by a matched numeric literal
`[-] intPart [. fracPart]`, as Python `float` parses it (exactly, in ℚ). -/
def tokValue (neg : Bool) (ip fp : List Char) : ℚ :=
  let v : ℚ := (digitsToNat ip : ℚ) + (digitsToNat fp : ℚ) / (10 : ℚ) ^ fp.length
  if neg then -v else v

/-- Try to match `-?\d+\.?\d*` at the head of the character list.
On success, return the value of the match together with the number of
consumed characters *minus one* (every match consumes at least one
character, which keeps the scanning recursion structurally decreasing). -/
def matchNumAt : List Char → Option (ℚ × Nat)
  | [] => none
  | c :: cs =>
    if c = '-' then
      match cs.takeWhile Char.isDigit with
      | [] => none
      | d :: ds =>
        match cs.dropWhile Char.isDigit with
        | e :: cs2 =>
          if e = '.' then
            let fs := cs2.takeWhile Char.isDigit
            some (tokValue true (d :: ds) fs, (d :: ds).length + 1 + fs.length)
          else some (tokValue true (d :: ds) [], (d :: ds).length)
        | [] => some (tokValue true (d :: ds) [], (d :: ds).length)
    else if c.isDigit then
      let tw := cs.takeWhile Char.isDigit
      match cs.dropWhile Char.isDigit with
      | e :: cs2 =>
        if e = '.' then
          let fs := cs2.takeWhile Char.isDigit
          some (tokValue false (c :: tw) fs, tw.length + 1 + fs.length)
        else some (tokValue false (c :: tw) [], tw.length)
      | [] => some (tokValue false (c :: tw) [], tw.length)
    else none

/-- The leftmost-greedy scan of `re.findall(r'-?\d+\.?\d*', ·)`:
on a match consume it (the stored count plus one characters) and continue
after it, otherwise advance one character.  The recursion is driven by a
fuel counter so that it is structural (and hence kernel-computable); every
step consumes at least one character, so fuel equal to the length of the
list is always sufficient (`findNumsAux_congr` below). -/
def findNumsAux : Nat → List Char → List ℚ
  | 0, _ => []
  | _ + 1, [] => []
  | fuel + 1, c :: cs =>
    match matchNumAt (c :: cs) with
    | some (q, k) => q :: findNumsAux fuel (cs.drop k)
    | none => findNumsAux fuel cs

/-- The full scan, with its canonical (always sufficient) fuel. -/
def findNums (cs : List Char) : List ℚ :=
  findNumsAux cs.length cs

/-- The fuel is irrelevant as soon as it covers the length of the list:
`findNumsAux` with any sufficient fuel computes `findNums`. -/
theorem findNumsAux_congr : ∀ (f1 f2 : Nat) (cs : List Char),
    cs.length ≤ f1 → cs.length ≤ f2 → findNumsAux f1 cs = findNumsAux f2 cs := by
  intro f1
  induction f1 with
  | zero =>
    intro f2 cs h1 _
    have : cs = [] := List.eq_nil_of_length_eq_zero (Nat.le_zero.mp h1)
    subst this
    cases f2 <;> rfl
  | succ f1 ih =>
    intro f2 cs h1 h2
    match cs with
    | [] => cases f2 <;> rfl
    | c :: cs' =>
      match f2 with
      | 0 => exact absurd h2 (by simp)
      | f2 + 1 =>
        simp only [findNumsAux]
        have hlen : cs'.length ≤ f1 := by
          simp only [List.length_cons] at h1
          omega
        have hlen2 : cs'.length ≤ f2 := by
          simp only [List.length_cons] at h2
          omega
        cases hm : matchNumAt (c :: cs') with
        | none =>
          simp only [hm]
          exact ih f2 cs' hlen hlen2
        | some qk =>
          obtain ⟨q, k⟩ := qk
          simp only [hm]
          have hdrop : (cs'.drop k).length ≤ cs'.length := by
            simp only [List.length_drop]
            omega
          rw [ih f2 (cs'.drop k) (le_trans hdrop hlen) (le_trans hdrop hlen2)]

/-! ### Scorer (`scorer.py`, class `NumericAwareScorer`) -/

/-- Configuration of `NumericAwareScorer.__init__` (`scorer.py` lines 15-24). -/
structure NumericAwareScorer where
  amount_tolerance_percent : ℚ
  exact_match_bonus : ℚ
deriving DecidableEq, Repr

namespace NumericAwareScorer

/-- `NumericAwareScorer.extract_numbers` (`scorer.py` lines 26-41). -/
def extract_numbers (text : String) : List ℚ :=
  findNums text.data

/-- The `for ref_num in ref_numbers` loop of `check_numeric_consistency`
(`scorer.py` lines 64-74): for each extracted number, first test for an
exact match, then for a within-tolerance match; `none` when the loop falls
through. -/
def scanRefNumbers (self : NumericAwareScorer) (source_amount tolerance : ℚ) :
    List ℚ → Option (Bool × ℚ × String)
  | [] => none
  | ref_num :: rest =>
    let diff := |source_amount - ref_num|
    if diff = 0 then
      some (true, self.exact_match_bonus,
        "Exact numeric match: " ++ toString source_amount)
    else if diff ≤ tolerance then
      some (true,
        (if 0 < tolerance then self.exact_match_bonus * (1 - diff / tolerance) else 0),
        "Numeric match within " ++ toString self.amount_tolerance_percent ++ "% tolerance")
    else
      scanRefNumbers self source_amount tolerance rest

/-- `NumericAwareScorer.check_numeric_consistency` (`scorer.py` lines 43-77). -/
def check_numeric_consistency (self : NumericAwareScorer) (source_amount : ℚ)
    (ref_description : String) : Bool × ℚ × String :=
  let ref_numbers := extract_numbers ref_description
  if ref_numbers = [] then
    (true, 0, "No numbers in reference description")
  else
    let tolerance := |source_amount * self.amount_tolerance_percent / 100|
    match scanRefNumbers self source_amount tolerance ref_numbers with
    | some result => result
    | none =>
      (false, -50,
        "Numeric mismatch: " ++ toString source_amount ++ " not found in "
          ++ toString ref_numbers)

end NumericAwareScorer

/-! ### Text similarity

`calculate_text_similarity` (`scorer.py` lines 79-92) delegates to
`rapidfuzz.fuzz.token_sort_ratio`, a third-party library whose source is not
part of this repository. -/

/-- Length of a longest common subsequence of two character lists, with a
fuel counter making the textbook recursion structural; each recursive call
drops at least one character, so fuel equal to the sum of the lengths is
always sufficient (`lcsAux_congr` below). -/
def lcsAux : Nat → List Char → List Char → Nat
  | 0, _, _ => 0
  | _ + 1, [], _ => 0
  | _ + 1, _ :: _, [] => 0
  | fuel + 1, a :: as, b :: bs =>
    if a = b then lcsAux fuel as bs + 1
    else max (lcsAux fuel (a :: as) bs) (lcsAux fuel as (b :: bs))

/-- Longest common subsequence length, with its canonical sufficient fuel. -/
def lcs (a b : List Char) : Nat :=
  lcsAux (a.length + b.length) a b

/-- The fuel is irrelevant as soon as it covers both lengths. -/
theorem lcsAux_congr : ∀ (f1 f2 : Nat) (a b : List Char),
    a.length + b.length ≤ f1 → a.length + b.length ≤ f2 →
    lcsAux f1 a b = lcsAux f2 a b := by
  intro f1
  induction f1 with
  | zero =>
    intro f2 a b h1 _
    have ha : a = [] := List.eq_nil_of_length_eq_zero (by omega)
    have hb : b = [] := List.eq_nil_of_length_eq_zero (by omega)
    subst ha hb
    cases f2 <;> rfl
  | succ f1 ih =>
    intro f2 a b h1 h2
    match a, b with
    | [], b => cases f2 <;> rfl
    | a :: as, [] => cases f2 with
      | zero => exact absurd h2 (by simp)
      | succ f2 => rfl
    | a :: as, b :: bs =>
      match f2 with
      | 0 => exact absurd h2 (by simp)
      | f2 + 1 =>
        simp only [List.length_cons] at h1 h2
        simp only [lcsAux]
        by_cases hab : a = b
        · rw [if_pos hab, if_pos hab, ih f2 as bs (by omega) (by omega)]
        · rw [if_neg hab, if_neg hab,
            ih f2 (a :: as) bs (by simp only [List.length_cons]; omega)
              (by simp only [List.length_cons]; omega),
            ih f2 as (b :: bs) (by simp only [List.length_cons]; omega)
              (by simp only [List.length_cons]; omega)]

/-- Lowercase a character list (the case normalization of the spec). -/
def lowerChars (cs : List Char) : List Char :=
  cs.map Char.toLower

/-- Split a character list into whitespace-separated tokens, dropping empty
tokens (the `acc` argument accumulates the current token, reversed). -/
def wordsAux : List Char → List Char → List (List Char)
  | [], acc => if acc = [] then [] else [acc.reverse]
  | c :: cs, acc =>
    if c.isWhitespace then
      if acc = [] then wordsAux cs [] else acc.reverse :: wordsAux cs []
    else wordsAux cs (c :: acc)

/-- Lexicographic comparison of character lists (Python's `sorted` order on
strings, by code point). -/
def charListLe : List Char → List Char → Bool
  | [], _ => true
  | _ :: _, [] => false
  | a :: as, b :: bs =>
    if a < b then true else if b < a then false else charListLe as bs

/-- Insert into a `charListLe`-sorted list of tokens. -/
def insertToken (t : List Char) : List (List Char) → List (List Char)
  | [] => [t]
  | u :: us => if charListLe t u then t :: u :: us else u :: insertToken t us

/-- Insertion sort of the token list by `charListLe`. -/
def sortTokens : List (List Char) → List (List Char)
  | [] => []
  | t :: ts => insertToken t (sortTokens ts)

/-- Modelled from the spec: `rapidfuzz.fuzz.token_sort_ratio`, the external
text-similarity metric used by `calculate_text_similarity` (its source is
not in this repository).  Per the spec: split each string into
case-normalized tokens, sort the tokens within each string, join them with
single spaces, and compute a normalized edit-similarity ratio between the
two sorted-token strings, scaled 0-100 (indel similarity:
`200 * lcs / (len1 + len2)`, with 100 for two empty strings). -/
def token_sort_ratio (s1 s2 : String) : ℚ :=
  let toks : String → List Char := fun s =>
    List.intercalate [' '] (sortTokens (wordsAux (lowerChars s.data) []))
  let a := toks s1
  let b := toks s2
  if a.length + b.length = 0 then 100
  else 200 * (lcs a b : ℚ) / ((a.length : ℚ) + (b.length : ℚ))

namespace NumericAwareScorer

/-- `NumericAwareScorer.calculate_text_similarity` (`scorer.py` lines 79-92). -/
def calculate_text_similarity (_self : NumericAwareScorer) (source_desc ref_desc : String) : ℚ :=
  token_sort_ratio source_desc ref_desc

end NumericAwareScorer

/-! ### Final score and confidence tier -/

/-- The details dictionary built by `calculate_final_score`
(`scorer.py` lines 132-139). -/
structure MatchDetails where
  text_score : ℚ
  numeric_consistent : Bool
  numeric_score : ℚ
  final_score : ℚ
  match_type : String
  explanation : String
deriving DecidableEq, Repr

/-- The confidence-tier chain of `calculate_final_score`
(`scorer.py` lines 122-130): top-down `if`/`elif`, first match wins. -/
def matchTypeOf (final_score : ℚ) : String :=
  if final_score ≥ 90 then "High Confidence"
  else if final_score ≥ 70 then "Medium Confidence"
  else if final_score ≥ 50 then "Low Confidence"
  else "Poor Match"

namespace NumericAwareScorer

/-- `NumericAwareScorer.calculate_final_score` (`scorer.py` lines 94-141). -/
def calculate_final_score (self : NumericAwareScorer) (source_desc : String)
    (source_amount : ℚ) (ref_desc : String) : ℚ × MatchDetails :=
  let text_score := self.calculate_text_similarity source_desc ref_desc
  let checked := self.check_numeric_consistency source_amount ref_desc
  let is_consistent := checked.1
  let numeric_score := checked.2.1
  let explanation := checked.2.2
  let final_score :=
    if ¬ is_consistent then max 0 (text_score + numeric_score)
    else min 100 (text_score + numeric_score)
  let match_type := matchTypeOf final_score
  (final_score,
   { text_score := text_score
     numeric_consistent := is_consistent
     numeric_score := numeric_score
     final_score := final_score
     match_type := match_type
     explanation := explanation })

end NumericAwareScorer

/-! ### Matcher (`matcher.py`, class `FuzzyMatcher`) -/

/-- One row of the reference data frame (columns `Description`, `Code`). -/
structure RefRow where
  Description : String
  Code : String
deriving DecidableEq, Repr

/-- One row of the source data frame (columns `Description`, `Amount`). -/
structure SourceRow where
  Description : String
  Amount : ℚ
deriving DecidableEq, Repr

/-- One row of the result data frame built by `match_datasets`
(`matcher.py` lines 116-122). -/
structure ResultRow where
  Description : String
  Amount : ℚ
  Matched_Code : String
  Match_Score : ℚ
  Match_Type : String
deriving DecidableEq, Repr

/-- One audit record built by `match_datasets` (`matcher.py` lines 126-136). -/
structure AuditRecord where
  Source_Description : String
  Source_Amount : ℚ
  Matched_Description : String
  Matched_Code : String
  Text_Match_Score : ℚ
  Numeric_Match : Bool
  Final_Score : ℚ
  Match_Type : String
  Explanation : String
deriving DecidableEq, Repr

/-- The dictionary returned by `find_best_match` (`matcher.py` lines 66-88). -/
structure MatchResult where
  matched : Bool
  code : String
  matched_description : String
  score : ℚ
  details : MatchDetails
deriving DecidableEq, Repr

/-- State of `FuzzyMatcher` (`matcher.py` lines 15-27): the acceptance
threshold, the internal scorer, and the mutable audit sequence. -/
structure FuzzyMatcher where
  threshold : ℚ
  scorer : NumericAwareScorer
  audit_records : List AuditRecord
deriving DecidableEq, Repr

/-- `FuzzyMatcher.__init__` (`matcher.py` lines 15-27): the scorer is built
from the tolerance and bonus, the audit sequence starts empty. -/
def FuzzyMatcher.init (threshold amount_tolerance exact_match_bonus : ℚ) : FuzzyMatcher :=
  { threshold := threshold
    scorer := { amount_tolerance_percent := amount_tolerance
                exact_match_bonus := exact_match_bonus }
    audit_records := [] }

/-- Running best of the reference scan in `find_best_match`
(`matcher.py` lines 42-44): `best_score = 0`, `best_match = None`,
`best_details = None`. -/
structure BestState where
  best_score : ℚ
  best_match : Option RefRow
  best_details : Option MatchDetails
deriving DecidableEq, Repr

/-- One iteration of the reference loop in `find_best_match`
(`matcher.py` lines 47-63): score the row and update the running best on a
strictly greater score. -/
def scanStep (scorer : NumericAwareScorer) (source_desc : String) (source_amount : ℚ)
    (st : BestState) (row : RefRow) : BestState :=
  let scored := scorer.calculate_final_score source_desc source_amount row.Description
  if scored.1 > st.best_score then
    { best_score := scored.1, best_match := some row, best_details := some scored.2 }
  else st

/-- The synthetic details dictionary of the unmatched branch of
`find_best_match` (`matcher.py` lines 80-87). -/
def noMatchDetails : MatchDetails :=
  { text_score := 0
    numeric_consistent := false
    numeric_score := 0
    final_score := 0
    match_type := "No Match"
    explanation := "No match found above threshold" }

/-- The reference loop of `find_best_match` (`matcher.py` lines 42-63), as
a left fold of `scanStep` from the initial `(0, None, None)` state. -/
def bestStateOf (scorer : NumericAwareScorer) (source_desc : String) (source_amount : ℚ)
    (reference_df : List RefRow) : BestState :=
  reference_df.foldl (scanStep scorer source_desc source_amount)
    { best_score := 0, best_match := none, best_details := none }

/-- `FuzzyMatcher.find_best_match` (`matcher.py` lines 29-88), in
state-passing style: the method reads `self.scorer` and `self.threshold` and
never assigns to `self`, so it returns `self` unchanged next to its result.
The Python guard is `best_score >= self.threshold and best_match`, i.e. the
best candidate must also exist (`best_match` is `None` or a non-empty dict);
in the unmatched branch the details fall back to the synthetic dictionary
exactly when `best_details` is `None`. -/
def FuzzyMatcher.find_best_match (self : FuzzyMatcher) (source_desc : String)
    (source_amount : ℚ) (reference_df : List RefRow) : MatchResult × FuzzyMatcher :=
  let st := bestStateOf self.scorer source_desc source_amount reference_df
  if st.best_score ≥ self.threshold ∧ st.best_match.isSome then
    ({ matched := true
       code := (st.best_match.getD { Description := "", Code := "" }).Code
       matched_description := (st.best_match.getD { Description := "", Code := "" }).Description
       score := st.best_score
       details := st.best_details.getD noMatchDetails }, self)
  else
    ({ matched := false
       code := "NO_MATCH"
       matched_description := ""
       score := st.best_score
       details := st.best_details.getD noMatchDetails }, self)

/-- Round half to even at integer precision (Python's `round`). -/
def roundHalfEven (q : ℚ) : ℤ :=
  if q - ⌊q⌋ < 1 / 2 then ⌊q⌋
  else if q - ⌊q⌋ > 1 / 2 then ⌊q⌋ + 1
  else if ⌊q⌋ % 2 = 0 then ⌊q⌋ else ⌊q⌋ + 1

/-- Python's `round(x, 2)`, modelled exactly on rationals. -/
def round2 (q : ℚ) : ℚ :=
  (roundHalfEven (q * 100) : ℚ) / 100

/-- The body of the source loop in `match_datasets` (`matcher.py` lines
108-137): find the best match for the row, append one result row and one
audit record. -/
def matchStep (reference_df : List RefRow) (acc : List ResultRow × FuzzyMatcher)
    (source_row : SourceRow) : List ResultRow × FuzzyMatcher :=
  let results := acc.1
  let m := acc.2
  let stepped := m.find_best_match source_row.Description source_row.Amount reference_df
  let match_result := stepped.1
  let m := stepped.2
  let result : ResultRow :=
    { Description := source_row.Description
      Amount := source_row.Amount
      Matched_Code := match_result.code
      Match_Score := round2 match_result.score
      Match_Type := match_result.details.match_type }
  let audit_record : AuditRecord :=
    { Source_Description := source_row.Description
      Source_Amount := source_row.Amount
      Matched_Description := match_result.matched_description
      Matched_Code := match_result.code
      Text_Match_Score := round2 match_result.details.text_score
      Numeric_Match := match_result.details.numeric_consistent
      Final_Score := round2 match_result.details.final_score
      Match_Type := match_result.details.match_type
      Explanation := match_result.details.explanation }
  (results ++ [result], { m with audit_records := m.audit_records ++ [audit_record] })

/-- `FuzzyMatcher.match_datasets` (`matcher.py` lines 90-144), in
state-passing style: reset `self.audit_records`, then for every source row
in order run `matchStep` (which calls `find_best_match` and appends one
result row and one audit record).  Returns the result table next to the
updated matcher. -/
def FuzzyMatcher.match_datasets (self : FuzzyMatcher) (source_df : List SourceRow)
    (reference_df : List RefRow) : List ResultRow × FuzzyMatcher :=
  let self := { self with audit_records := [] }
  source_df.foldl (matchStep reference_df) ([], self)

/-- `FuzzyMatcher.get_audit_log` (`matcher.py` lines 146-153). -/
def FuzzyMatcher.get_audit_log (self : FuzzyMatcher) : List AuditRecord :=
  self.audit_records

/-! ## Helper lemmas about number extraction -/

theorem takeWhile_isDigit_eq_nil (cs : List Char)
    (h : ∀ c ∈ cs, ¬ c.isDigit = true) : cs.takeWhile Char.isDigit = [] := by
  match htw : cs.takeWhile Char.isDigit with
  | [] => rfl
  | d :: ds =>
    exfalso
    have hdmem : d ∈ cs.takeWhile Char.isDigit := by
      rw [htw]; exact List.mem_cons_self d ds
    exact h d ((List.takeWhile_sublist Char.isDigit).subset hdmem)
      (List.mem_takeWhile_imp hdmem)

theorem matchNumAt_eq_none_of_no_digit (cs : List Char)
    (h : ∀ c ∈ cs, ¬ c.isDigit = true) : matchNumAt cs = none := by
  match cs with
  | [] => rfl
  | c :: cs' =>
    rw [matchNumAt]
    have hc : ¬ c.isDigit = true := h c (List.mem_cons_self c cs')
    have htail : ∀ c ∈ cs', ¬ c.isDigit = true :=
      fun x hx => h x (List.mem_cons_of_mem _ hx)
    by_cases hminus : c = '-'
    · rw [if_pos hminus, takeWhile_isDigit_eq_nil cs' htail]
    · rw [if_neg hminus, if_neg hc]

/-- The shape of one numeric literal of the claim: an optional leading
minus, one or more digits, then an optional decimal point with further
optional digits; its value is the one Python's `float` assigns. -/
def IsNumLit (tok : List Char) (q : ℚ) : Prop :=
  ∃ (neg hasDot : Bool) (ip fp : List Char),
    ip ≠ [] ∧ (∀ c ∈ ip, c.isDigit = true) ∧ (∀ c ∈ fp, c.isDigit = true) ∧
    (hasDot = false → fp = []) ∧
    tok = (if neg then ['-'] else []) ++ ip ++ (if hasDot then '.' :: fp else []) ∧
    q = tokValue neg ip fp

/-- One extracted number in context: the digit-free gap preceding it, the
literal's own characters, and its value. -/
structure NumSeg where
  gap : List Char
  tok : List Char
  val : ℚ

/-- Reassemble a text from its gap/literal segments and trailing gap. -/
def glue : List NumSeg → List Char → List Char
  | [], tail => tail
  | seg :: rest, tail => seg.gap ++ (seg.tok ++ glue rest tail)

theorem drop_length_takeWhile (p : Char → Bool) : ∀ l : List Char,
    l.drop (l.takeWhile p).length = l.dropWhile p := by
  intro l
  induction l with
  | nil => rfl
  | cons c l' ih =>
    by_cases h : p c
    · simp only [List.takeWhile_cons, List.dropWhile_cons, h, if_pos rfl,
        List.length_cons, List.drop_succ_cons]
      exact ih
    · simp only [List.takeWhile_cons, List.dropWhile_cons, h]
      simp [h]

theorem drop_append_len {α : Type} (l1 l2 : List α) (m : Nat) :
    (l1 ++ l2).drop (l1.length + m) = l2.drop m := by
  induction l1 with
  | nil => simp
  | cons x xs ih =>
    simp only [List.cons_append, List.length_cons]
    rw [show xs.length + 1 + m = (xs.length + m) + 1 from by omega, List.drop_succ_cons]
    exact ih

/-- A successful `matchNumAt` step consumes exactly one numeric literal off
the front of the list: the input splits as that literal followed by the
characters the scan resumes on. -/
theorem matchNumAt_decomp (c : Char) (cs : List Char) (q : ℚ) (k : Nat)
    (h : matchNumAt (c :: cs) = some (q, k)) :
    ∃ tok : List Char, c :: cs = tok ++ cs.drop k ∧ IsNumLit tok q := by
  have hcs : cs.takeWhile Char.isDigit ++ cs.dropWhile Char.isDigit = cs :=
    List.takeWhile_append_dropWhile _ _
  have hdroptw : cs.drop (cs.takeWhile Char.isDigit).length = cs.dropWhile Char.isDigit :=
    drop_length_takeWhile Char.isDigit cs
  rw [matchNumAt] at h
  by_cases hminus : c = '-'
  · rw [if_pos hminus] at h
    cases htw : cs.takeWhile Char.isDigit with
    | nil =>
      rw [htw] at h
      exact absurd h (by simp)
    | cons d ds =>
      rw [htw] at h hcs hdroptw
      dsimp only at h
      have hdig : ∀ x ∈ d :: ds, x.isDigit = true := by
        intro x hx
        rw [← htw] at hx
        exact List.mem_takeWhile_imp hx
      have hlit0 : IsNumLit ('-' :: (d :: ds)) (tokValue true (d :: ds) []) :=
        ⟨true, false, d :: ds, [], by simp, hdig, by simp, fun _ => rfl, by simp, rfl⟩
      cases hdw : cs.dropWhile Char.isDigit with
      | nil =>
        rw [hdw] at h hcs
        dsimp only at h
        injection h with h1
        injection h1 with hq hk
        subst hk
        refine ⟨'-' :: (d :: ds), ?_, hq ▸ hlit0⟩
        have h2 : cs = d :: ds := by simpa using hcs.symm
        rw [hminus, hdroptw, hdw, List.append_nil, h2]
      | cons e cs2 =>
        rw [hdw] at h hcs hdroptw
        dsimp only at h
        by_cases hdot : e = '.'
        · subst hdot
          rw [if_pos rfl] at h
          injection h with h1
          injection h1 with hq hk
          subst hk
          have hcs2 : cs2.takeWhile Char.isDigit ++ cs2.dropWhile Char.isDigit = cs2 :=
            List.takeWhile_append_dropWhile _ _
          refine ⟨'-' :: ((d :: ds) ++ '.' :: cs2.takeWhile Char.isDigit), ?_, ?_⟩
          · have hdropk :
                cs.drop ((d :: ds).length + 1 + (cs2.takeWhile Char.isDigit).length) =
                  cs2.dropWhile Char.isDigit := by
              rw [show (d :: ds).length + 1 + (cs2.takeWhile Char.isDigit).length =
                  (d :: ds).length + ((cs2.takeWhile Char.isDigit).length + 1) from by
                  omega,
                ← List.drop_drop, hdroptw, List.drop_succ_cons]
              exact drop_length_takeWhile Char.isDigit cs2
            rw [hminus, hdropk]
            have hcs3 : d :: (ds ++ '.' :: cs2) = cs := by
              rw [← hcs]
              simp
            simp only [List.cons_append, List.append_assoc]
            rw [hcs2, hcs3]
          · exact ⟨true, true, d :: ds, cs2.takeWhile Char.isDigit, by simp, hdig,
              fun x hx => List.mem_takeWhile_imp hx, by simp, by simp, hq.symm⟩
        · rw [if_neg hdot] at h
          injection h with h1
          injection h1 with hq hk
          subst hk
          refine ⟨'-' :: (d :: ds), ?_, hq ▸ hlit0⟩
          rw [hminus, hdroptw, List.cons_append, hcs]

  · rw [if_neg hminus] at h
    by_cases hcd : c.isDigit = true
    · rw [if_pos hcd] at h
      dsimp only at h
      have hdig : ∀ x ∈ c :: cs.takeWhile Char.isDigit, x.isDigit = true := by
        intro x hx
        rcases List.mem_cons.mp hx with hx | hx
        · subst hx
          exact hcd
        · exact List.mem_takeWhile_imp hx
      have hlit0 : IsNumLit (c :: cs.takeWhile Char.isDigit)
          (tokValue false (c :: cs.takeWhile Char.isDigit) []) :=
        ⟨false, false, c :: cs.takeWhile Char.isDigit, [], by simp, hdig, by simp,
          fun _ => rfl, by simp, rfl⟩
      cases hdw : cs.dropWhile Char.isDigit with
      | nil =>
        rw [hdw] at h hcs
        dsimp only at h
        injection h with h1
        injection h1 with hq hk
        subst hk
        refine ⟨c :: cs.takeWhile Char.isDigit, ?_, hq ▸ hlit0⟩
        have h2 : cs = cs.takeWhile Char.isDigit := by simpa using hcs.symm
        conv_lhs => rw [h2]
        rw [hdroptw, hdw, List.append_nil]
      | cons e cs2 =>
        rw [hdw] at h hcs hdroptw
        dsimp only at h
        by_cases hdot : e = '.'
        · subst hdot
          rw [if_pos rfl] at h
          injection h with h1
          injection h1 with hq hk
          subst hk
          have hcs2 : cs2.takeWhile Char.isDigit ++ cs2.dropWhile Char.isDigit = cs2 :=
            List.takeWhile_append_dropWhile _ _
          refine ⟨c :: (cs.takeWhile Char.isDigit ++ '.' :: cs2.takeWhile Char.isDigit),
            ?_, ?_⟩
          · have hdropk :
                cs.drop ((cs.takeWhile Char.isDigit).length + 1 +
                    (cs2.takeWhile Char.isDigit).length) =
                  cs2.dropWhile Char.isDigit := by
              rw [show (cs.takeWhile Char.isDigit).length + 1 +
                    (cs2.takeWhile Char.isDigit).length =
                  (cs.takeWhile Char.isDigit).length +
                    ((cs2.takeWhile Char.isDigit).length + 1) from by omega,
                ← List.drop_drop, hdroptw, List.drop_succ_cons]
              exact drop_length_takeWhile Char.isDigit cs2
            rw [hdropk]
            simp only [List.cons_append, List.append_assoc]
            rw [hcs2, hcs]
          · exact ⟨false, true, c :: cs.takeWhile Char.isDigit,
              cs2.takeWhile Char.isDigit, by simp, hdig,
              fun x hx => List.mem_takeWhile_imp hx, by simp, by simp, hq.symm⟩
        · rw [if_neg hdot] at h
          injection h with h1
          injection h1 with hq hk
          subst hk
          refine ⟨c :: cs.takeWhile Char.isDigit, ?_, hq ▸ hlit0⟩
          rw [hdroptw, List.cons_append, hcs]
    · rw [if_neg hcd] at h
      exact absurd h (by simp)

/-- A character the scan skips over is never a digit (a digit always starts
a match). -/
theorem matchNumAt_none_head (c : Char) (cs : List Char)
    (h : matchNumAt (c :: cs) = none) : c.isDigit = false := by
  rw [matchNumAt] at h
  by_cases hminus : c = '-'
  · subst hminus
    decide
  · rw [if_neg hminus] at h
    by_cases hcd : c.isDigit = true
    · rw [if_pos hcd] at h
      dsimp only at h
      cases hdw : cs.dropWhile Char.isDigit with
      | nil =>
        rw [hdw] at h
        exact absurd h (by simp)
      | cons e cs2 =>
        rw [hdw] at h
        dsimp only at h
        by_cases hdot : e = '.'
        · rw [if_pos hdot] at h
          exact absurd h (by simp)
        · rw [if_neg hdot] at h
          exact absurd h (by simp)
    · exact Bool.eq_false_iff.mpr hcd

/-- Fuel-indexed version of the scan decomposition: with sufficient fuel,
the scanned text splits into digit-free gaps alternating with the numeric
literals whose values are returned, in left-to-right order, ending in a
digit-free trailing gap. -/
theorem findNumsAux_decomp : ∀ (fuel : Nat) (cs : List Char), cs.length ≤ fuel →
    ∃ (segs : List NumSeg) (tail : List Char),
      cs = glue segs tail ∧
      findNumsAux fuel cs = segs.map NumSeg.val ∧
      (∀ seg ∈ segs, IsNumLit seg.tok seg.val ∧ ∀ x ∈ seg.gap, x.isDigit = false) ∧
      (∀ x ∈ tail, x.isDigit = false) := by
  intro fuel
  induction fuel with
  | zero =>
    intro cs hlen
    have : cs = [] := List.eq_nil_of_length_eq_zero (Nat.le_zero.mp hlen)
    subst this
    exact ⟨[], [], rfl, rfl, by simp, by simp⟩
  | succ fuel ih =>
    intro cs hlen
    match cs with
    | [] => exact ⟨[], [], rfl, rfl, by simp, by simp⟩
    | c :: cs' =>
      simp only [List.length_cons] at hlen
      cases hm : matchNumAt (c :: cs') with
      | none =>
        obtain ⟨segs, tail, hglue, hval, hlits, htail⟩ := ih cs' (by omega)
        have hcd : c.isDigit = false := matchNumAt_none_head c cs' hm
        have hstep : findNumsAux (fuel + 1) (c :: cs') = findNumsAux fuel cs' := by
          simp only [findNumsAux, hm]
        cases segs with
        | nil =>
          refine ⟨[], c :: tail, ?_, ?_, by simp, ?_⟩
          · show c :: cs' = c :: tail
            rw [hglue]
            rfl
          · rw [hstep, hval]
          · intro x hx
            rcases List.mem_cons.mp hx with hx | hx
            · subst hx
              exact hcd
            · exact htail x hx
        | cons seg rest =>
          refine ⟨{ gap := c :: seg.gap, tok := seg.tok, val := seg.val } :: rest,
            tail, ?_, ?_, ?_, htail⟩
          · show c :: cs' = (c :: seg.gap) ++ (seg.tok ++ glue rest tail)
            rw [List.cons_append, hglue]
            rfl
          · rw [hstep, hval]
            rfl
          · intro sg hsg
            rcases List.mem_cons.mp hsg with h1 | h1
            · subst h1
              refine ⟨(hlits seg (List.mem_cons_self seg rest)).1, ?_⟩
              intro x hx
              rcases List.mem_cons.mp hx with hx | hx
              · subst hx
                exact hcd
              · exact (hlits seg (List.mem_cons_self seg rest)).2 x hx
            · exact hlits sg (List.mem_cons_of_mem _ h1)
      | some qk =>
        obtain ⟨q, k⟩ := qk
        obtain ⟨tok, hsplit, hlit⟩ := matchNumAt_decomp c cs' q k hm
        have hdl : (cs'.drop k).length ≤ fuel := by
          simp only [List.length_drop]
          omega
        obtain ⟨segs, tail, hglue, hval, hlits, htail⟩ := ih (cs'.drop k) hdl
        refine ⟨{ gap := [], tok := tok, val := q } :: segs, tail, ?_, ?_, ?_, htail⟩
        · show c :: cs' = [] ++ (tok ++ glue segs tail)
          rw [List.nil_append, ← hglue]
          exact hsplit
        · have hstep : findNumsAux (fuel + 1) (c :: cs') =
              q :: findNumsAux fuel (cs'.drop k) := by
            simp only [findNumsAux, hm]
          rw [hstep, hval]
          rfl
        · intro sg hsg
          rcases List.mem_cons.mp hsg with h1 | h1
          · subst h1
            exact ⟨hlit, by simp⟩
          · exact hlits sg h1

/-- The scan decomposition at the canonical fuel. -/
theorem findNums_decomp (cs : List Char) :
    ∃ (segs : List NumSeg) (tail : List Char),
      cs = glue segs tail ∧
      findNums cs = segs.map NumSeg.val ∧
      (∀ seg ∈ segs, IsNumLit seg.tok seg.val ∧ ∀ x ∈ seg.gap, x.isDigit = false) ∧
      (∀ x ∈ tail, x.isDigit = false) :=
  findNumsAux_decomp cs.length cs (le_refl _)

theorem findNums_eq_nil_of_no_digit (cs : List Char)
    (h : ∀ c ∈ cs, ¬ c.isDigit = true) : findNums cs = [] := by
  induction cs with
  | nil => rfl
  | cons c cs' ih =>
    show findNumsAux (c :: cs').length (c :: cs') = []
    rw [List.length_cons]
    simp only [findNumsAux, matchNumAt_eq_none_of_no_digit _ h]
    exact ih (fun x hx => h x (List.mem_cons_of_mem _ hx))

theorem matchNumAt_cons_eq_none (c : Char) (cs : List Char)
    (hminus : ¬ c = '-') (hc : ¬ c.isDigit = true) : matchNumAt (c :: cs) = none := by
  rw [matchNumAt, if_neg hminus, if_neg hc]

/-- Characters that can neither start a match nor contribute to one are
skipped: scanning resumes unchanged after them. -/
theorem findNums_append_of_skippable (cs ds : List Char)
    (h : ∀ c ∈ cs, ¬ c.isDigit = true ∧ ¬ c = '-') :
    findNums (cs ++ ds) = findNums ds := by
  induction cs with
  | nil => rw [List.nil_append]
  | cons c cs' ih =>
    have hc := h c (List.mem_cons_self c cs')
    show findNumsAux ((c :: cs') ++ ds).length ((c :: cs') ++ ds) = findNums ds
    rw [List.cons_append, List.length_cons]
    simp only [findNumsAux, matchNumAt_cons_eq_none c _ hc.2 hc.1]
    exact ih (fun x hx => h x (List.mem_cons_of_mem _ hx))

/-! ## Helper lemmas about the numeric-consistency scan -/

theorem scanRefNumbers_exact_after_out_of_tol (self : NumericAwareScorer)
    (amt tol : ℚ) (l1 l2 : List ℚ) (x : ℚ)
    (hout : ∀ y ∈ l1, ¬ |amt - y| = 0 ∧ ¬ |amt - y| ≤ tol)
    (hx : |amt - x| = 0) :
    self.scanRefNumbers amt tol (l1 ++ x :: l2) =
      some (true, self.exact_match_bonus, "Exact numeric match: " ++ toString amt) := by
  induction l1 with
  | nil =>
    rw [List.nil_append]
    unfold NumericAwareScorer.scanRefNumbers
    rw [if_pos hx]
  | cons y ys ih =>
    have hy := hout y (List.mem_cons_self y ys)
    rw [List.cons_append]
    unfold NumericAwareScorer.scanRefNumbers
    rw [if_neg hy.1, if_neg hy.2]
    exact ih (fun z hz => hout z (List.mem_cons_of_mem _ hz))

theorem scanRefNumbers_some_fst (self : NumericAwareScorer) (amt tol : ℚ) :
    ∀ (l : List ℚ) (r : Bool × ℚ × String),
      self.scanRefNumbers amt tol l = some r → r.1 = true := by
  intro l
  induction l with
  | nil => intro r h; exact absurd h (by simp [NumericAwareScorer.scanRefNumbers])
  | cons y ys ih =>
    intro r h
    unfold NumericAwareScorer.scanRefNumbers at h
    by_cases h0 : |amt - y| = 0
    · rw [if_pos h0] at h
      cases h
      rfl
    · rw [if_neg h0] at h
      by_cases h1 : |amt - y| ≤ tol
      · rw [if_pos h1] at h
        cases h
        rfl
      · rw [if_neg h1] at h
        exact ih r h

theorem scanRefNumbers_some_score_nonneg (self : NumericAwareScorer) (amt tol : ℚ)
    (hb : 0 ≤ self.exact_match_bonus) :
    ∀ (l : List ℚ) (r : Bool × ℚ × String),
      self.scanRefNumbers amt tol l = some r → 0 ≤ r.2.1 := by
  intro l
  induction l with
  | nil => intro r h; exact absurd h (by simp [NumericAwareScorer.scanRefNumbers])
  | cons y ys ih =>
    intro r h
    unfold NumericAwareScorer.scanRefNumbers at h
    by_cases h0 : |amt - y| = 0
    · rw [if_pos h0] at h
      cases h
      exact hb
    · rw [if_neg h0] at h
      by_cases h1 : |amt - y| ≤ tol
      · rw [if_pos h1] at h
        cases h
        by_cases h2 : (0 : ℚ) < tol
        · have hdiv : |amt - y| / tol ≤ 1 := (div_le_one h2).mpr h1
          have : (0 : ℚ) ≤ 1 - |amt - y| / tol := by linarith
          simpa [if_pos h2] using mul_nonneg hb this
        · simp [if_neg h2]
      · rw [if_neg h1] at h
        exact ih r h

/-- Case analysis of `check_numeric_consistency`: it is either consistent
with a nonnegative score (when the bonus parameter is nonnegative), or
inconsistent with the fixed score `-50`. -/
theorem check_numeric_consistency_cases (self : NumericAwareScorer)
    (amt : ℚ) (rd : String) :
    ((self.check_numeric_consistency amt rd).1 = true ∧
      (0 ≤ self.exact_match_bonus → 0 ≤ (self.check_numeric_consistency amt rd).2.1)) ∨
    ((self.check_numeric_consistency amt rd).1 = false ∧
      (self.check_numeric_consistency amt rd).2.1 = -50) := by
  unfold NumericAwareScorer.check_numeric_consistency
  by_cases hnil : NumericAwareScorer.extract_numbers rd = []
  · rw [hnil]
    left
    exact ⟨rfl, fun _ => le_refl 0⟩
  · rw [if_neg hnil]
    cases hscan : self.scanRefNumbers amt |amt * self.amount_tolerance_percent / 100|
        (NumericAwareScorer.extract_numbers rd) with
    | some r =>
      simp only [hscan]
      left
      exact ⟨scanRefNumbers_some_fst self _ _ _ r hscan,
        fun hb => scanRefNumbers_some_score_nonneg self _ _ hb _ r hscan⟩
    | none =>
      right
      constructor
      · simp [hscan]
      · simp [hscan]

/-! ## Helper lemmas about the text-similarity ratio -/

theorem lcsAux_le_left : ∀ (f : Nat) (a b : List Char), lcsAux f a b ≤ a.length := by
  intro f
  induction f with
  | zero => intro a b; exact Nat.zero_le _
  | succ f ih =>
    intro a b
    match a, b with
    | [], _ => exact Nat.zero_le _
    | _ :: _, [] => exact Nat.zero_le _
    | a :: as, b :: bs =>
      simp only [lcsAux]
      by_cases hab : a = b
      · rw [if_pos hab]
        simpa [List.length_cons] using Nat.succ_le_succ (ih as bs)
      · rw [if_neg hab]
        refine max_le ?_ ?_
        · exact ih (a :: as) bs
        · exact le_trans (ih as (b :: bs)) (by simp [List.length_cons])

theorem lcsAux_le_right : ∀ (f : Nat) (a b : List Char), lcsAux f a b ≤ b.length := by
  intro f
  induction f with
  | zero => intro a b; exact Nat.zero_le _
  | succ f ih =>
    intro a b
    match a, b with
    | [], _ => exact Nat.zero_le _
    | _ :: _, [] => exact Nat.zero_le _
    | a :: as, b :: bs =>
      simp only [lcsAux]
      by_cases hab : a = b
      · rw [if_pos hab]
        simpa [List.length_cons] using Nat.succ_le_succ (ih as bs)
      · rw [if_neg hab]
        refine max_le ?_ ?_
        · exact le_trans (ih (a :: as) bs) (by simp [List.length_cons])
        · exact ih as (b :: bs)

theorem token_sort_ratio_nonneg (s1 s2 : String) : 0 ≤ token_sort_ratio s1 s2 := by
  unfold token_sort_ratio
  dsimp only
  split
  · norm_num
  · positivity

theorem token_sort_ratio_le_100 (s1 s2 : String) : token_sort_ratio s1 s2 ≤ 100 := by
  unfold token_sort_ratio
  dsimp only
  split
  · norm_num
  · rename_i hne
    set a := List.intercalate [' '] (sortTokens (wordsAux (lowerChars s1.data) []))
    set b := List.intercalate [' '] (sortTokens (wordsAux (lowerChars s2.data) []))
    have hpos : (0 : ℚ) < (a.length : ℚ) + (b.length : ℚ) := by
      have : 0 < a.length + b.length := Nat.pos_of_ne_zero hne
      exact_mod_cast this
    rw [div_le_iff₀ hpos]
    have h1 : lcs a b ≤ a.length := lcsAux_le_left _ a b
    have h2 : lcs a b ≤ b.length := lcsAux_le_right _ a b
    have : (lcs a b : ℚ) ≤ (a.length : ℚ) := by exact_mod_cast h1
    have : (lcs a b : ℚ) ≤ (b.length : ℚ) := by exact_mod_cast h2
    nlinarith

theorem calculate_text_similarity_mem_Icc (self : NumericAwareScorer)
    (source_desc ref_desc : String) :
    0 ≤ self.calculate_text_similarity source_desc ref_desc ∧
      self.calculate_text_similarity source_desc ref_desc ≤ 100 :=
  ⟨token_sort_ratio_nonneg source_desc ref_desc, token_sort_ratio_le_100 source_desc ref_desc⟩

/-! ## Helper lemmas about the reference scan of `find_best_match` -/

/-- Final score the scorer assigns to one reference row. -/
def rowScore (scorer : NumericAwareScorer) (d : String) (a : ℚ) (row : RefRow) : ℚ :=
  (scorer.calculate_final_score d a row.Description).1

/-- The running maximum of the final scores over the reference rows,
starting from 0 — the `best_score` value tracked by `find_best_match`. -/
def bestScore (scorer : NumericAwareScorer) (d : String) (a : ℚ)
    (refs : List RefRow) : ℚ :=
  refs.foldl (fun b r => max b (rowScore scorer d a r)) 0

theorem scanStep_best_score (sc : NumericAwareScorer) (d : String) (a : ℚ)
    (st : BestState) (r : RefRow) :
    (scanStep sc d a st r).best_score = max st.best_score (rowScore sc d a r) := by
  unfold scanStep rowScore
  by_cases h : (sc.calculate_final_score d a r.Description).1 > st.best_score
  · rw [if_pos h]
    exact (max_eq_right (le_of_lt h)).symm
  · rw [if_neg h]
    exact (max_eq_left (not_lt.mp h)).symm

theorem foldl_scanStep_best_score (sc : NumericAwareScorer) (d : String) (a : ℚ) :
    ∀ (refs : List RefRow) (st : BestState),
      (refs.foldl (scanStep sc d a) st).best_score =
        refs.foldl (fun b r => max b (rowScore sc d a r)) st.best_score := by
  intro refs
  induction refs with
  | nil => intro st; rfl
  | cons r rs ih =>
    intro st
    simp only [List.foldl_cons]
    rw [ih (scanStep sc d a st r), scanStep_best_score]

theorem le_foldl_max (sc : NumericAwareScorer) (d : String) (a : ℚ) :
    ∀ (refs : List RefRow) (b : ℚ),
      b ≤ refs.foldl (fun x r => max x (rowScore sc d a r)) b := by
  intro refs
  induction refs with
  | nil => intro b; exact le_refl b
  | cons r rs ih =>
    intro b
    simp only [List.foldl_cons]
    exact le_trans (le_max_left b (rowScore sc d a r)) (ih _)

theorem bestStateOf_best_score (sc : NumericAwareScorer) (d : String) (a : ℚ)
    (refs : List RefRow) :
    (bestStateOf sc d a refs).best_score = bestScore sc d a refs :=
  foldl_scanStep_best_score sc d a refs _

theorem bestScore_nonneg (sc : NumericAwareScorer) (d : String) (a : ℚ)
    (refs : List RefRow) : 0 ≤ bestScore sc d a refs :=
  le_foldl_max sc d a refs 0

theorem matchTypeOf_ne_noMatch (q : ℚ) : matchTypeOf q ≠ "No Match" := by
  unfold matchTypeOf
  split_ifs <;> decide

/-- Invariant of the running best maintained by the reference loop: the
score is nonnegative, a best row exists exactly when the score is positive,
the best details exist exactly when a best row does, and any stored details
were produced by the scorer (so never carry the "No Match" label). -/
def GoodState (st : BestState) : Prop :=
  0 ≤ st.best_score ∧
  (st.best_match.isSome = true ↔ 0 < st.best_score) ∧
  (st.best_details.isSome = true ↔ st.best_match.isSome = true) ∧
  (∀ dt, st.best_details = some dt → dt.match_type ≠ "No Match")

theorem goodState_init : GoodState { best_score := 0, best_match := none, best_details := none } := by
  refine ⟨le_refl 0, ?_, ?_, ?_⟩
  · simp
  · simp
  · intro dt h
    exact absurd h (by simp)

theorem scanStep_good (sc : NumericAwareScorer) (d : String) (a : ℚ)
    (st : BestState) (r : RefRow) (hg : GoodState st) :
    GoodState (scanStep sc d a st r) := by
  unfold scanStep
  by_cases h : (sc.calculate_final_score d a r.Description).1 > st.best_score
  · rw [if_pos h]
    refine ⟨le_trans hg.1 (le_of_lt h), ?_, ?_, ?_⟩
    · simpa using lt_of_le_of_lt hg.1 h
    · simp
    · intro dt hdt
      have : dt = (sc.calculate_final_score d a r.Description).2 := by
        simpa using hdt.symm
      subst this
      show (sc.calculate_final_score d a r.Description).2.match_type ≠ "No Match"
      unfold NumericAwareScorer.calculate_final_score
      exact matchTypeOf_ne_noMatch _
  · rw [if_neg h]
    exact hg

theorem foldl_scanStep_good (sc : NumericAwareScorer) (d : String) (a : ℚ) :
    ∀ (refs : List RefRow) (st : BestState), GoodState st →
      GoodState (refs.foldl (scanStep sc d a) st) := by
  intro refs
  induction refs with
  | nil => intro st hg; exact hg
  | cons r rs ih =>
    intro st hg
    simp only [List.foldl_cons]
    exact ih _ (scanStep_good sc d a st r hg)

theorem bestStateOf_good (sc : NumericAwareScorer) (d : String) (a : ℚ)
    (refs : List RefRow) : GoodState (bestStateOf sc d a refs) :=
  foldl_scanStep_good sc d a refs _ goodState_init

theorem foldl_scanStep_no_update (sc : NumericAwareScorer) (d : String) (a : ℚ) :
    ∀ (l : List RefRow) (st : BestState),
      (∀ r ∈ l, rowScore sc d a r ≤ st.best_score) →
      l.foldl (scanStep sc d a) st = st := by
  intro l
  induction l with
  | nil => intro st _; rfl
  | cons r rs ih =>
    intro st hle
    have hr : rowScore sc d a r ≤ st.best_score := hle r (List.mem_cons_self r rs)
    have hstep : scanStep sc d a st r = st := by
      have hr' : ¬ (sc.calculate_final_score d a r.Description).1 > st.best_score := by
        unfold rowScore at hr
        exact not_lt.mpr hr
      unfold scanStep
      dsimp only
      rw [if_neg hr']
    simp only [List.foldl_cons, hstep]
    exact ih st (fun x hx => hle x (List.mem_cons_of_mem _ hx))

theorem foldl_scanStep_lt (sc : NumericAwareScorer) (d : String) (a : ℚ) (M : ℚ) :
    ∀ (l : List RefRow) (st : BestState), st.best_score < M →
      (∀ r ∈ l, rowScore sc d a r < M) →
      (l.foldl (scanStep sc d a) st).best_score < M := by
  intro l
  induction l with
  | nil => intro st h _; exact h
  | cons r rs ih =>
    intro st hst hlt
    simp only [List.foldl_cons]
    refine ih _ ?_ (fun x hx => hlt x (List.mem_cons_of_mem _ hx))
    rw [scanStep_best_score]
    exact max_lt hst (hlt r (List.mem_cons_self r rs))

theorem scanStep_cases (sc : NumericAwareScorer) (d : String) (a : ℚ)
    (st : BestState) (r : RefRow) :
    scanStep sc d a st r = st ∨
    scanStep sc d a st r =
      { best_score := rowScore sc d a r, best_match := some r,
        best_details := some ((sc.calculate_final_score d a r.Description).2) } := by
  unfold scanStep rowScore
  dsimp only
  by_cases h : (sc.calculate_final_score d a r.Description).1 > st.best_score
  · right
    rw [if_pos h]
  · left
    rw [if_neg h]

/-- Each pass of the reference loop either leaves the running best unchanged
or installs, wholesale, the state derived from some row of the list: the
score, row and details of the final state always belong together. -/
theorem foldl_scanStep_cases (sc : NumericAwareScorer) (d : String) (a : ℚ) :
    ∀ (l : List RefRow) (st : BestState),
      l.foldl (scanStep sc d a) st = st ∨
      ∃ row ∈ l, l.foldl (scanStep sc d a) st =
        { best_score := rowScore sc d a row, best_match := some row,
          best_details := some ((sc.calculate_final_score d a row.Description).2) } := by
  intro l
  induction l with
  | nil =>
    intro st
    left
    rfl
  | cons r rs ih =>
    intro st
    simp only [List.foldl_cons]
    rcases scanStep_cases sc d a st r with h | h
    · rw [h]
      rcases ih st with h2 | ⟨row, hm, h2⟩
      · left
        exact h2
      · right
        exact ⟨row, List.mem_cons_of_mem _ hm, h2⟩
    · rw [h]
      rcases ih _ with h2 | ⟨row, hm, h2⟩
      · right
        refine ⟨r, List.mem_cons_self r rs, ?_⟩
        rw [h2]
      · right
        exact ⟨row, List.mem_cons_of_mem _ hm, h2⟩

/-! ## Claim C1 -/

/-- C1, counterexample: the claim says that whenever some extracted number
differs from `source_amount` by exactly 0, `check_numeric_consistency`
returns the exact-match bonus (the exact-match scan completing before the
tolerance scan is considered).  On the code this is false: with tolerance
5% and bonus 20, amount `100` against `"99 100"` hits the within-tolerance
branch on `99` (score `16`) before the exactly-matching `100` is ever
examined. -/
theorem c1_counterexample :
    (100 : ℚ) ∈ NumericAwareScorer.extract_numbers "99 100" ∧
    |(100 : ℚ) - 100| = 0 ∧
    NumericAwareScorer.check_numeric_consistency
        { amount_tolerance_percent := 5, exact_match_bonus := 20 } 100 "99 100" =
      (true, 16, "Numeric match within 5% tolerance") ∧
    (16 : ℚ) ≠ 20 := by
  refine ⟨?_, ?_, ?_, ?_⟩ <;> with_unfolding_all decide

/-- The no-numbers note never coincides with an exact-match note (their
first characters differ). -/
theorem noNumbers_ne_exactNote (s : String) :
    ("No numbers in reference description" : String) ≠ "Exact numeric match: " ++ s := by
  intro h
  have h2 : ('N' : Char) :: ("o numbers in reference description" : String).data =
      'E' :: (("xact numeric match: " : String).data ++ s.data) :=
    congrArg String.data h
  exact absurd (List.cons_eq_cons.mp h2).1 (by decide)

/-- The within-tolerance note never coincides with an exact-match note
(their first characters differ). -/
theorem tolNote_ne_exactNote (t s : String) :
    "Numeric match within " ++ t ++ "% tolerance" ≠ "Exact numeric match: " ++ s := by
  intro h
  have h2 : ('N' : Char) ::
      ((("umeric match within " : String).data ++ t.data) ++ ("% tolerance" : String).data) =
      'E' :: (("xact numeric match: " : String).data ++ s.data) :=
    congrArg String.data h
  exact absurd (List.cons_eq_cons.mp h2).1 (by decide)

/-- Necessity direction of the interleaved-scan characterization: if the
scan returns the exact-match triple, the scanned list splits at an exactly
matching number preceded only by numbers that are neither exact nor within
tolerance. -/
theorem scanRefNumbers_exact_split (self : NumericAwareScorer) (amt tol : ℚ) :
    ∀ l : List ℚ,
      self.scanRefNumbers amt tol l =
        some (true, self.exact_match_bonus, "Exact numeric match: " ++ toString amt) →
      ∃ l1 x l2, l = l1 ++ x :: l2 ∧
        (∀ y ∈ l1, ¬ |amt - y| = 0 ∧ ¬ |amt - y| ≤ tol) ∧ |amt - x| = 0 := by
  intro l
  induction l with
  | nil =>
    intro h
    exact absurd h (by simp [NumericAwareScorer.scanRefNumbers])
  | cons y ys ih =>
    intro h
    unfold NumericAwareScorer.scanRefNumbers at h
    by_cases h0 : |amt - y| = 0
    · exact ⟨[], y, ys, by simp, by simp, h0⟩
    · rw [if_neg h0] at h
      by_cases h1 : |amt - y| ≤ tol
      · rw [if_pos h1] at h
        exfalso
        have h3 := Option.some.inj h
        exact tolNote_ne_exactNote (toString self.amount_tolerance_percent) (toString amt)
          (congrArg (fun p => p.2.2) h3)
      · rw [if_neg h1] at h
        obtain ⟨l1, x, l2, he, hout, hx⟩ := ih h
        refine ⟨y :: l1, x, l2, by rw [he, List.cons_append], ?_, hx⟩
        intro z hz
        rcases List.mem_cons.mp hz with hz | hz
        · subst hz
          exact ⟨h0, h1⟩
        · exact hout z hz

/-- C1, amended: the exact-match and within-tolerance checks are interleaved
in one scan over the extracted numbers, so `check_numeric_consistency`
returns `(true, exact_match_bonus, exact-match note)` precisely when an
exactly-matching number occurs among the extracted numbers preceded only by
numbers that are neither exact nor within tolerance. -/
theorem c1_exact_match_interleaved (self : NumericAwareScorer) (amt : ℚ)
    (rd : String) :
    self.check_numeric_consistency amt rd =
      (true, self.exact_match_bonus, "Exact numeric match: " ++ toString amt) ↔
    ∃ l1 x l2, NumericAwareScorer.extract_numbers rd = l1 ++ x :: l2 ∧
      (∀ y ∈ l1, ¬ |amt - y| = 0 ∧
        ¬ |amt - y| ≤ |amt * self.amount_tolerance_percent / 100|) ∧
      |amt - x| = 0 := by
  constructor
  · intro h
    by_cases hnil : NumericAwareScorer.extract_numbers rd = []
    · exfalso
      have hcheck : self.check_numeric_consistency amt rd =
          (true, 0, "No numbers in reference description") := by
        unfold NumericAwareScorer.check_numeric_consistency
        rw [hnil]
        rfl
      rw [hcheck] at h
      exact noNumbers_ne_exactNote (toString amt) (congrArg (fun p => p.2.2) h)
    · unfold NumericAwareScorer.check_numeric_consistency at h
      dsimp only at h
      rw [if_neg hnil] at h
      cases hscan : self.scanRefNumbers amt |amt * self.amount_tolerance_percent / 100|
          (NumericAwareScorer.extract_numbers rd) with
      | none =>
        rw [hscan] at h
        dsimp only at h
        exact absurd (congrArg (fun p => p.1) h) (by simp)
      | some r =>
        rw [hscan] at h
        dsimp only at h
        rw [h] at hscan
        exact scanRefNumbers_exact_split self amt _ _ hscan
  · rintro ⟨l1, x, l2, hsplit, hout, hx⟩
    unfold NumericAwareScorer.check_numeric_consistency
    rw [hsplit]
    rw [if_neg (by simp : ¬ l1 ++ x :: l2 = [])]
    dsimp only
    rw [scanRefNumbers_exact_after_out_of_tol self amt _ l1 l2 x hout hx]

/-- Witness for C1's amended statement: amount `100` against `"200 100"`
(the leading `200` is out of tolerance, the `100` is exact), through the
sufficiency direction of the biconditional. -/
theorem c1_exact_match_interleaved_witness :
    NumericAwareScorer.check_numeric_consistency
        { amount_tolerance_percent := 5, exact_match_bonus := 20 } 100 "200 100" =
      (true, 20, "Exact numeric match: " ++ toString (100 : ℚ)) :=
  (c1_exact_match_interleaved { amount_tolerance_percent := 5, exact_match_bonus := 20 }
      100 "200 100").mpr
    ⟨[200], 100, [], by with_unfolding_all decide,
     (by
       intro y hy
       rw [List.mem_singleton] at hy
       subst hy
       constructor <;> with_unfolding_all decide),
     by with_unfolding_all decide⟩

/-! ## Claim C2 -/

/-- C2, counterexample: the claim says `find_best_match` returns a matched
result iff the best final score is `>= threshold` and the reference list is
non-empty.  With threshold 0 and a single reference row scoring 0 (no text
overlap, no numbers), the best score 0 meets the threshold and the list is
non-empty, yet the code returns an unmatched result: the Python guard
`best_score >= self.threshold and best_match` also requires a candidate to
have been recorded, which happens only on a strictly positive score. -/
theorem c2_counterexample :
    bestScore { amount_tolerance_percent := 5, exact_match_bonus := 20 } "a" 0
        [{ Description := "b", Code := "R1" }] = 0 ∧
    (FuzzyMatcher.mk 0 { amount_tolerance_percent := 5, exact_match_bonus := 20 }
        []).threshold ≤
      bestScore { amount_tolerance_percent := 5, exact_match_bonus := 20 } "a" 0
        [{ Description := "b", Code := "R1" }] ∧
    ([{ Description := "b", Code := "R1" }] : List RefRow) ≠ [] ∧
    ((FuzzyMatcher.mk 0 { amount_tolerance_percent := 5, exact_match_bonus := 20 }
        []).find_best_match "a" 0 [{ Description := "b", Code := "R1" }]).1.matched =
      false := by
  refine ⟨?_, ?_, ?_, ?_⟩ <;> with_unfolding_all decide

/-- C2, amended: `find_best_match` returns a matched result iff the best
final score over the reference rows is `>= threshold` AND some reference
row achieved a strictly positive score (with a non-empty reference list
this differs from the original claim only when every row scores 0);
the result's score is always the best score found (0 if the reference set
was empty), and an unmatched result carries code "NO_MATCH" and an empty
matched description. -/
theorem c2_find_best_match_matched_iff (m : FuzzyMatcher) (d : String) (a : ℚ)
    (refs : List RefRow) :
    ((m.find_best_match d a refs).1.matched = true ↔
      (m.threshold ≤ bestScore m.scorer d a refs ∧ 0 < bestScore m.scorer d a refs)) ∧
    (m.find_best_match d a refs).1.score = bestScore m.scorer d a refs ∧
    ((m.find_best_match d a refs).1.matched = false →
      (m.find_best_match d a refs).1.code = "NO_MATCH" ∧
      (m.find_best_match d a refs).1.matched_description = "") := by
  have hbs := bestStateOf_best_score m.scorer d a refs
  have hg := bestStateOf_good m.scorer d a refs
  unfold FuzzyMatcher.find_best_match
  dsimp only
  by_cases hcond : (bestStateOf m.scorer d a refs).best_score ≥ m.threshold ∧
      (bestStateOf m.scorer d a refs).best_match.isSome = true
  · rw [if_pos hcond]
    refine ⟨?_, by simpa using hbs, ?_⟩
    · simp only [true_iff]
      exact ⟨hbs ▸ hcond.1, hbs ▸ (hg.2.1.mp hcond.2)⟩
    · intro hfalse
      exact absurd hfalse (by simp)
  · rw [if_neg hcond]
    refine ⟨?_, by simpa using hbs, fun _ => ⟨rfl, rfl⟩⟩
    constructor
    · intro hft
      exact absurd hft (by simp)
    · rintro ⟨h1, h2⟩
      refine absurd ⟨?_, hg.2.1.mpr ?_⟩ hcond
      · rw [ge_iff_le, hbs]
        exact h1
      · rw [hbs]
        exact h2

/-- Witness for C2's amended statement: with threshold 50, description
`"a"`, amount 5 and the single reference row `("a 5", "R1")` (final score
70), the match is accepted. -/
theorem c2_find_best_match_matched_iff_witness :
    ((FuzzyMatcher.mk 50 { amount_tolerance_percent := 5, exact_match_bonus := 20 }
        []).find_best_match "a" 5 [{ Description := "a 5", Code := "R1" }]).1.matched =
      true :=
  (c2_find_best_match_matched_iff
      (FuzzyMatcher.mk 50 { amount_tolerance_percent := 5, exact_match_bonus := 20 } [])
      "a" 5 [{ Description := "a 5", Code := "R1" }]).1.mpr
    ⟨by with_unfolding_all decide, by with_unfolding_all decide⟩

/-! ## Claim C3 -/

/-- C3, counterexample: the claim says every unmatched `find_best_match`
result carries match_type "No Match".  With threshold 90 and one reference
row scoring 70, the result is unmatched but its details are the scorer's
best-candidate details, labelled "Medium Confidence": the synthetic
"No Match" details are used only when no candidate scored above 0. -/
theorem c3_counterexample :
    ((FuzzyMatcher.mk 90 { amount_tolerance_percent := 5, exact_match_bonus := 20 }
        []).find_best_match "a" 5 [{ Description := "a 5", Code := "C1" }]).1.matched =
      false ∧
    ((FuzzyMatcher.mk 90 { amount_tolerance_percent := 5, exact_match_bonus := 20 }
        []).find_best_match "a" 5
          [{ Description := "a 5", Code := "C1" }]).1.details.match_type =
      "Medium Confidence" ∧
    ("Medium Confidence" : String) ≠ "No Match" := by
  refine ⟨?_, ?_, ?_⟩ <;> with_unfolding_all decide

/-- C3, amended: the label "No Match" appears in a `find_best_match`
result's details exactly when no reference row achieved a strictly positive
final score (then the synthetic zero-valued details are returned); whenever
some row scored positively — in particular for an unmatched result whose
best candidate scored positively — the result's details are the
scorer-produced details of a best-scoring reference row, so they carry that
candidate's scorer-assigned confidence label; and the Scorer's
`calculate_final_score` never returns the label "No Match" for any input. -/
theorem c3_no_match_label (m : FuzzyMatcher) (d : String) (a : ℚ)
    (refs : List RefRow) :
    ((m.find_best_match d a refs).1.details.match_type = "No Match" ↔
      bestScore m.scorer d a refs = 0) ∧
    (0 < bestScore m.scorer d a refs →
      ∃ row ∈ refs,
        rowScore m.scorer d a row = bestScore m.scorer d a refs ∧
        (m.find_best_match d a refs).1.details =
          (m.scorer.calculate_final_score d a row.Description).2 ∧
        (m.find_best_match d a refs).1.details.match_type =
          matchTypeOf (rowScore m.scorer d a row)) ∧
    (∀ (self : NumericAwareScorer) (sd : String) (sa : ℚ) (rd : String),
      (self.calculate_final_score sd sa rd).2.match_type ≠ "No Match") := by
  have hbs := bestStateOf_best_score m.scorer d a refs
  have hg := bestStateOf_good m.scorer d a refs
  have hdetails : (m.find_best_match d a refs).1.details =
      (bestStateOf m.scorer d a refs).best_details.getD noMatchDetails := by
    unfold FuzzyMatcher.find_best_match
    dsimp only
    split <;> rfl
  refine ⟨?_, ?_, ?_⟩
  · rw [hdetails]
    constructor
    · intro hlabel
      by_contra hne
      have hpos : 0 < bestScore m.scorer d a refs :=
        lt_of_le_of_ne (bestScore_nonneg m.scorer d a refs) (Ne.symm hne)
      have hsome : (bestStateOf m.scorer d a refs).best_match.isSome = true :=
        hg.2.1.mpr (by rw [hbs]; exact hpos)
      obtain ⟨dt, hdt⟩ := Option.isSome_iff_exists.mp (hg.2.2.1.mpr hsome)
      rw [hdt] at hlabel
      exact hg.2.2.2 dt hdt hlabel
    · intro h0
      have hnotsome : ¬ (bestStateOf m.scorer d a refs).best_match.isSome = true := by
        intro hs
        have := hg.2.1.mp hs
        rw [hbs, h0] at this
        exact lt_irrefl 0 this
      have hnone : (bestStateOf m.scorer d a refs).best_details = none := by
        cases hd : (bestStateOf m.scorer d a refs).best_details with
        | none => rfl
        | some dt =>
          exact absurd (hg.2.2.1.mp (by rw [hd]; rfl)) hnotsome
      rw [hnone]
      rfl
  · intro hpos
    rcases foldl_scanStep_cases m.scorer d a refs
        { best_score := 0, best_match := none, best_details := none } with hcase | hcase
    · exfalso
      have hzero : (bestStateOf m.scorer d a refs).best_score = 0 := by
        have h2 : bestStateOf m.scorer d a refs =
            { best_score := 0, best_match := none, best_details := none } := hcase
        rw [h2]
      rw [← hbs, hzero] at hpos
      exact lt_irrefl 0 hpos
    · obtain ⟨row, hm, hrow⟩ := hcase
      have h2 : bestStateOf m.scorer d a refs =
          { best_score := rowScore m.scorer d a row, best_match := some row,
            best_details :=
              some ((m.scorer.calculate_final_score d a row.Description).2) } := hrow
      have hscore : rowScore m.scorer d a row = bestScore m.scorer d a refs := by
        rw [← hbs, h2]
      have hdet : (m.find_best_match d a refs).1.details =
          (m.scorer.calculate_final_score d a row.Description).2 := by
        rw [hdetails, h2]
        rfl
      refine ⟨row, hm, hscore, hdet, ?_⟩
      rw [hdet]
      rfl
  · intro self sd sa rd
    show (self.calculate_final_score sd sa rd).2.match_type ≠ "No Match"
    unfold NumericAwareScorer.calculate_final_score
    exact matchTypeOf_ne_noMatch _

/-- Witness for C3's amended statement: with an empty reference list the
best score is 0 and the synthetic "No Match" details are returned; and with
threshold 90 against the single row `("a 5", "C1")` scoring 70 (positive),
the unmatched result's details are that candidate's scorer-produced details
with the scorer-assigned label. -/
theorem c3_no_match_label_witness :
    ((FuzzyMatcher.mk 70 { amount_tolerance_percent := 5, exact_match_bonus := 20 }
        []).find_best_match "a" 5 ([] : List RefRow)).1.details.match_type =
      "No Match" ∧
    ∃ row ∈ ([{ Description := "a 5", Code := "C1" }] : List RefRow),
      rowScore { amount_tolerance_percent := 5, exact_match_bonus := 20 } "a" 5 row =
        bestScore { amount_tolerance_percent := 5, exact_match_bonus := 20 } "a" 5
          [{ Description := "a 5", Code := "C1" }] ∧
      ((FuzzyMatcher.mk 90 { amount_tolerance_percent := 5, exact_match_bonus := 20 }
          []).find_best_match "a" 5
            [{ Description := "a 5", Code := "C1" }]).1.details =
        (NumericAwareScorer.calculate_final_score
          { amount_tolerance_percent := 5, exact_match_bonus := 20 } "a" 5
          row.Description).2 ∧
      ((FuzzyMatcher.mk 90 { amount_tolerance_percent := 5, exact_match_bonus := 20 }
          []).find_best_match "a" 5
            [{ Description := "a 5", Code := "C1" }]).1.details.match_type =
        matchTypeOf
          (rowScore { amount_tolerance_percent := 5, exact_match_bonus := 20 } "a" 5
            row) :=
  ⟨(c3_no_match_label
      (FuzzyMatcher.mk 70 { amount_tolerance_percent := 5, exact_match_bonus := 20 } [])
      "a" 5 ([] : List RefRow)).1.mpr (by with_unfolding_all decide),
   (c3_no_match_label
      (FuzzyMatcher.mk 90 { amount_tolerance_percent := 5, exact_match_bonus := 20 } [])
      "a" 5 [{ Description := "a 5", Code := "C1" }]).2.1
     (by with_unfolding_all decide)⟩

/-! ## Claim C7 -/

theorem scanStep_update (sc : NumericAwareScorer) (d : String) (a : ℚ)
    (st : BestState) (r : RefRow) (h : st.best_score < rowScore sc d a r) :
    scanStep sc d a st r =
      { best_score := rowScore sc d a r, best_match := some r,
        best_details := some ((sc.calculate_final_score d a r.Description).2) } := by
  unfold rowScore at h
  unfold scanStep
  dsimp only
  rw [if_pos h]
  rfl

/-- C7, counterexample: the claim says that for two reference rows with
equal maximal final scores the earlier row's code and description are
returned.  With threshold 90 and two identical rows both scoring 70, the
tie is kept internally but nothing of the earlier row is returned: the
result carries code "NO_MATCH" and an empty description because the tied
score is below the threshold. -/
theorem c7_counterexample :
    rowScore { amount_tolerance_percent := 5, exact_match_bonus := 20 } "a" 5
        { Description := "a 5", Code := "R1" } =
      rowScore { amount_tolerance_percent := 5, exact_match_bonus := 20 } "a" 5
        { Description := "a 5", Code := "R2" } ∧
    ((FuzzyMatcher.mk 90 { amount_tolerance_percent := 5, exact_match_bonus := 20 }
        []).find_best_match "a" 5
          [{ Description := "a 5", Code := "R1" },
           { Description := "a 5", Code := "R2" }]).1.code = "NO_MATCH" ∧
    ("NO_MATCH" : String) ≠ "R1" ∧
    ((FuzzyMatcher.mk 90 { amount_tolerance_percent := 5, exact_match_bonus := 20 }
        []).find_best_match "a" 5
          [{ Description := "a 5", Code := "R1" },
           { Description := "a 5", Code := "R2" }]).1.matched_description = "" := by
  refine ⟨?_, ?_, ?_, ?_⟩ <;> with_unfolding_all decide

/-- C7, amended: `find_best_match` keeps the row with the strictly greatest
score seen so far (no update of the running best on score equality), so
when two rows tie for the maximal score the earlier one is retained; its
code and description are returned provided that tied maximal score is
strictly positive and clears the threshold. -/
theorem c7_first_max_wins (m : FuzzyMatcher) (d : String) (a : ℚ)
    (l1 l2 l3 : List RefRow) (ra rb : RefRow)
    (heq : rowScore m.scorer d a rb = rowScore m.scorer d a ra)
    (hl1 : ∀ r ∈ l1, rowScore m.scorer d a r < rowScore m.scorer d a ra)
    (hl2 : ∀ r ∈ l2, rowScore m.scorer d a r ≤ rowScore m.scorer d a ra)
    (hl3 : ∀ r ∈ l3, rowScore m.scorer d a r ≤ rowScore m.scorer d a ra)
    (hpos : 0 < rowScore m.scorer d a ra)
    (hthr : m.threshold ≤ rowScore m.scorer d a ra) :
    (m.find_best_match d a (l1 ++ ra :: l2 ++ rb :: l3)).1.matched = true ∧
    (m.find_best_match d a (l1 ++ ra :: l2 ++ rb :: l3)).1.code = ra.Code ∧
    (m.find_best_match d a (l1 ++ ra :: l2 ++ rb :: l3)).1.matched_description =
      ra.Description ∧
    (m.find_best_match d a (l1 ++ ra :: l2 ++ rb :: l3)).1.score =
      rowScore m.scorer d a ra := by
  have hst : bestStateOf m.scorer d a (l1 ++ ra :: l2 ++ rb :: l3) =
      { best_score := rowScore m.scorer d a ra, best_match := some ra,
        best_details := some ((m.scorer.calculate_final_score d a ra.Description).2) } := by
    unfold bestStateOf
    rw [List.foldl_append, List.foldl_append, List.foldl_cons, List.foldl_cons]
    have h1 : (l1.foldl (scanStep m.scorer d a)
        { best_score := 0, best_match := none, best_details := none }).best_score <
        rowScore m.scorer d a ra :=
      foldl_scanStep_lt m.scorer d a _ l1 _ hpos hl1
    rw [scanStep_update m.scorer d a _ ra h1]
    rw [foldl_scanStep_no_update m.scorer d a l2
      { best_score := rowScore m.scorer d a ra, best_match := some ra,
        best_details := some ((m.scorer.calculate_final_score d a ra.Description).2) }
      (fun r hr => hl2 r hr)]
    refine foldl_scanStep_no_update m.scorer d a (rb :: l3)
      { best_score := rowScore m.scorer d a ra, best_match := some ra,
        best_details := some ((m.scorer.calculate_final_score d a ra.Description).2) } ?_
    intro r hr
    rcases List.mem_cons.mp hr with hb | h3
    · subst hb
      exact le_of_eq heq
    · exact hl3 r h3
  unfold FuzzyMatcher.find_best_match
  dsimp only
  rw [hst]
  rw [if_pos ⟨hthr, rfl⟩]
  exact ⟨rfl, rfl, rfl, rfl⟩

/-- Witness for C7's amended statement: two identical rows `("a 5", "R1")`
and `("a 5", "R2")` both score 70 with threshold 50; the earlier code "R1"
is returned. -/
theorem c7_first_max_wins_witness :
    ((FuzzyMatcher.mk 50 { amount_tolerance_percent := 5, exact_match_bonus := 20 }
        []).find_best_match "a" 5
          [{ Description := "a 5", Code := "R1" },
           { Description := "a 5", Code := "R2" }]).1.matched = true ∧
    ((FuzzyMatcher.mk 50 { amount_tolerance_percent := 5, exact_match_bonus := 20 }
        []).find_best_match "a" 5
          [{ Description := "a 5", Code := "R1" },
           { Description := "a 5", Code := "R2" }]).1.code = "R1" := by
  have h := c7_first_max_wins
    (FuzzyMatcher.mk 50 { amount_tolerance_percent := 5, exact_match_bonus := 20 } [])
    "a" 5 [] [] [] { Description := "a 5", Code := "R1" }
    { Description := "a 5", Code := "R2" }
    (by with_unfolding_all decide)
    (by intro r hr; exact absurd hr (List.not_mem_nil r))
    (by intro r hr; exact absurd hr (List.not_mem_nil r))
    (by intro r hr; exact absurd hr (List.not_mem_nil r))
    (by with_unfolding_all decide)
    (by with_unfolding_all decide)
  exact ⟨h.1, h.2.1⟩

/-! ## Claim C5 -/

/-- C5: for every scorer with a nonnegative exact-match bonus and every
source description, source amount and reference description,
`calculate_final_score` computes `min(100, text + numeric)` when the
numeric check is consistent (so the total is clamped at 100 and never
driven below the text score), and `max(0, text + numeric)` when
inconsistent (the fixed `-50` penalty floored at 0, so a text score above
50 survives with a positive final score). -/
theorem c5_final_score_blend (self : NumericAwareScorer)
    (hb : 0 ≤ self.exact_match_bonus)
    (source_desc : String) (source_amount : ℚ) (ref_desc : String) :
    ((self.check_numeric_consistency source_amount ref_desc).1 = true →
      (self.calculate_final_score source_desc source_amount ref_desc).1 =
          min 100 (self.calculate_text_similarity source_desc ref_desc +
            (self.check_numeric_consistency source_amount ref_desc).2.1) ∧
        self.calculate_text_similarity source_desc ref_desc ≤
          (self.calculate_final_score source_desc source_amount ref_desc).1 ∧
        (self.calculate_final_score source_desc source_amount ref_desc).1 ≤ 100) ∧
    ((self.check_numeric_consistency source_amount ref_desc).1 = false →
      (self.calculate_final_score source_desc source_amount ref_desc).1 =
          max 0 (self.calculate_text_similarity source_desc ref_desc +
            (self.check_numeric_consistency source_amount ref_desc).2.1) ∧
        (self.check_numeric_consistency source_amount ref_desc).2.1 = -50 ∧
        0 ≤ (self.calculate_final_score source_desc source_amount ref_desc).1 ∧
        (50 < self.calculate_text_similarity source_desc ref_desc →
          0 < (self.calculate_final_score source_desc source_amount ref_desc).1)) := by
  have hcases := check_numeric_consistency_cases self source_amount ref_desc
  have htext := calculate_text_similarity_mem_Icc self source_desc ref_desc
  unfold NumericAwareScorer.calculate_final_score
  dsimp only
  constructor
  · intro htrue
    rw [htrue]
    rw [if_neg (show ¬ ¬ (true = true) by simp)]
    have hnum : 0 ≤ (self.check_numeric_consistency source_amount ref_desc).2.1 := by
      rcases hcases with ⟨_, h⟩ | ⟨hfalse, _⟩
      · exact h hb
      · rw [htrue] at hfalse
        exact absurd hfalse (by simp)
    refine ⟨rfl, ?_, min_le_left _ _⟩
    exact le_min (htext.2) (by linarith [htext.1])
  · intro hfalse
    rw [hfalse]
    rw [if_pos (show ¬ (false = true) by simp)]
    have hnum : (self.check_numeric_consistency source_amount ref_desc).2.1 = -50 := by
      rcases hcases with ⟨htrue, _⟩ | ⟨_, h⟩
      · rw [hfalse] at htrue
        exact absurd htrue (by simp)
      · exact h
    refine ⟨rfl, hnum, le_max_left _ _, fun h50 => ?_⟩
    rw [hnum]
    have : 0 < self.calculate_text_similarity source_desc ref_desc + -50 := by linarith
    exact lt_of_lt_of_le this (le_max_right _ _)

/-- Witness for C5: the scorer `(5, 20)` on a consistent pair
(`"a"`, amount 5, reference `"a 5"`: text 50, numeric bonus 20, final 70)
and on an inconsistent pair (`"a b c"`, amount 9, reference `"a b c 5"`:
text 80, penalty −50, final 30, positive because the text score exceeds
50). -/
theorem c5_final_score_blend_witness :
    (NumericAwareScorer.calculate_final_score
        { amount_tolerance_percent := 5, exact_match_bonus := 20 } "a" 5 "a 5").1 =
      min 100 (NumericAwareScorer.calculate_text_similarity
          { amount_tolerance_percent := 5, exact_match_bonus := 20 } "a" "a 5" +
        (NumericAwareScorer.check_numeric_consistency
          { amount_tolerance_percent := 5, exact_match_bonus := 20 } 5 "a 5").2.1) ∧
    0 < (NumericAwareScorer.calculate_final_score
        { amount_tolerance_percent := 5, exact_match_bonus := 20 } "a b c" 9 "a b c 5").1 :=
  ⟨((c5_final_score_blend { amount_tolerance_percent := 5, exact_match_bonus := 20 }
      (by norm_num) "a" 5 "a 5").1 (by with_unfolding_all decide)).1,
   ((c5_final_score_blend { amount_tolerance_percent := 5, exact_match_bonus := 20 }
      (by norm_num) "a b c" 9 "a b c 5").2 (by with_unfolding_all decide)).2.2.2
     (by with_unfolding_all decide)⟩

/-! ## Claim C6 -/

/-- C6: confidence tiering uses closed thresholds evaluated top-down with
the first match winning: a final score `≥ 90` yields "High Confidence",
one in `[70, 90)` yields "Medium Confidence", one in `[50, 70)` yields
"Low Confidence", and one below 50 yields "Poor Match"; and the
`match_type` recorded by `calculate_final_score` is exactly this tiering of
its final score. -/
theorem c6_confidence_tiers (fs : ℚ) :
    (90 ≤ fs → matchTypeOf fs = "High Confidence") ∧
    (70 ≤ fs → fs < 90 → matchTypeOf fs = "Medium Confidence") ∧
    (50 ≤ fs → fs < 70 → matchTypeOf fs = "Low Confidence") ∧
    (fs < 50 → matchTypeOf fs = "Poor Match") ∧
    (∀ (self : NumericAwareScorer) (d : String) (a : ℚ) (rd : String),
      (self.calculate_final_score d a rd).2.match_type =
        matchTypeOf (self.calculate_final_score d a rd).1) := by
  refine ⟨fun h => ?_, fun h1 h2 => ?_, fun h1 h2 => ?_, fun h => ?_, fun self d a rd => rfl⟩
  · rw [matchTypeOf, if_pos (ge_iff_le.mpr h)]
  · rw [matchTypeOf, if_neg (by simpa [ge_iff_le] using not_le.mpr h2),
      if_pos (ge_iff_le.mpr h1)]
  · rw [matchTypeOf, if_neg (by simp only [ge_iff_le, not_le]; linarith),
      if_neg (by simp only [ge_iff_le, not_le]; linarith), if_pos (ge_iff_le.mpr h1)]
  · rw [matchTypeOf, if_neg (by simp only [ge_iff_le, not_le]; linarith),
      if_neg (by simp only [ge_iff_le, not_le]; linarith),
      if_neg (by simpa [ge_iff_le] using not_le.mpr h)]

/-- Witness for C6 at the spec's boundary values: 90, 89.999, 70 and
49.999. -/
theorem c6_confidence_tiers_witness :
    matchTypeOf 90 = "High Confidence" ∧
    matchTypeOf (89999 / 1000) = "Medium Confidence" ∧
    matchTypeOf 70 = "Medium Confidence" ∧
    matchTypeOf (49999 / 1000) = "Poor Match" :=
  ⟨(c6_confidence_tiers 90).1 (by norm_num),
   (c6_confidence_tiers (89999 / 1000)).2.1 (by norm_num) (by norm_num),
   (c6_confidence_tiers 70).2.1 (by norm_num) (by norm_num),
   (c6_confidence_tiers (49999 / 1000)).2.2.2.1 (by norm_num)⟩

/-! ## Helper lemmas about `match_datasets` -/

theorem find_best_match_snd (m : FuzzyMatcher) (d : String) (a : ℚ)
    (refs : List RefRow) : (m.find_best_match d a refs).2 = m := by
  unfold FuzzyMatcher.find_best_match
  dsimp only
  split <;> rfl

theorem matchStep_spec (refs : List RefRow) (acc : List ResultRow × FuzzyMatcher)
    (row : SourceRow) :
    (matchStep refs acc row).1.length = acc.1.length + 1 ∧
    (matchStep refs acc row).2.audit_records.length = acc.2.audit_records.length + 1 ∧
    (matchStep refs acc row).1.map ResultRow.Matched_Code =
      acc.1.map ResultRow.Matched_Code ++
        [(acc.2.find_best_match row.Description row.Amount refs).1.code] ∧
    (matchStep refs acc row).2.audit_records.map AuditRecord.Matched_Code =
      acc.2.audit_records.map AuditRecord.Matched_Code ++
        [(acc.2.find_best_match row.Description row.Amount refs).1.code] ∧
    (matchStep refs acc row).2.threshold = acc.2.threshold ∧
    (matchStep refs acc row).2.scorer = acc.2.scorer := by
  unfold matchStep
  dsimp only
  rw [find_best_match_snd]
  refine ⟨by simp, by simp, by simp, by simp, rfl, rfl⟩

theorem foldl_matchStep_spec (refs : List RefRow) :
    ∀ (src : List SourceRow) (acc : List ResultRow × FuzzyMatcher),
      (src.foldl (matchStep refs) acc).1.length = acc.1.length + src.length ∧
      (src.foldl (matchStep refs) acc).2.audit_records.length =
        acc.2.audit_records.length + src.length ∧
      (acc.1.map ResultRow.Matched_Code =
          acc.2.audit_records.map AuditRecord.Matched_Code →
        (src.foldl (matchStep refs) acc).1.map ResultRow.Matched_Code =
          (src.foldl (matchStep refs) acc).2.audit_records.map AuditRecord.Matched_Code) ∧
      (src.foldl (matchStep refs) acc).2.threshold = acc.2.threshold ∧
      (src.foldl (matchStep refs) acc).2.scorer = acc.2.scorer := by
  intro src
  induction src with
  | nil =>
    intro acc
    exact ⟨by simp, by simp, fun h => h, rfl, rfl⟩
  | cons row rows ih =>
    intro acc
    have hstep := matchStep_spec refs acc row
    have hrec := ih (matchStep refs acc row)
    simp only [List.foldl_cons, List.length_cons]
    refine ⟨?_, ?_, ?_, ?_, ?_⟩
    · rw [hrec.1, hstep.1]
      omega
    · rw [hrec.2.1, hstep.2.1]
      omega
    · intro h
      refine hrec.2.2.1 ?_
      rw [hstep.2.2.1, hstep.2.2.2.1, h]
    · rw [hrec.2.2.2.1, hstep.2.2.2.2.1]
    · rw [hrec.2.2.2.2, hstep.2.2.2.2.2]

/-! ## Claim C4 -/

/-- C4: after every `match_datasets` call the result table, the audit table
(as read back by `get_audit_log`) and the source table have equal length —
including the empty-source case, where both outputs are empty regardless of
the reference table — and row for row the result's `Matched_Code` equals
the audit record's `Matched_Code`. -/
theorem c4_result_audit_alignment (m : FuzzyMatcher) (src : List SourceRow)
    (refs : List RefRow) :
    (m.match_datasets src refs).1.length = src.length ∧
    (m.match_datasets src refs).2.get_audit_log.length = src.length ∧
    (m.match_datasets src refs).1.map ResultRow.Matched_Code =
      (m.match_datasets src refs).2.get_audit_log.map AuditRecord.Matched_Code := by
  unfold FuzzyMatcher.match_datasets FuzzyMatcher.get_audit_log
  dsimp only
  have h := foldl_matchStep_spec refs src ([], { m with audit_records := [] })
  exact ⟨by simpa using h.1, by simpa using h.2.1, h.2.2.1 (by simp)⟩

/-- Witness for C4: one source row against one reference row gives one
result row and one aligned audit record. -/
theorem c4_result_audit_alignment_witness :
    ((FuzzyMatcher.mk 70 { amount_tolerance_percent := 5, exact_match_bonus := 20 }
        []).match_datasets [{ Description := "a", Amount := 5 }]
          [{ Description := "a 5", Code := "R1" }]).1.length = 1 ∧
    ((FuzzyMatcher.mk 70 { amount_tolerance_percent := 5, exact_match_bonus := 20 }
        []).match_datasets [{ Description := "a", Amount := 5 }]
          [{ Description := "a 5", Code := "R1" }]).2.get_audit_log.length = 1 ∧
    ((FuzzyMatcher.mk 70 { amount_tolerance_percent := 5, exact_match_bonus := 20 }
        []).match_datasets [{ Description := "a", Amount := 5 }]
          [{ Description := "a 5", Code := "R1" }]).1.map ResultRow.Matched_Code =
      ((FuzzyMatcher.mk 70 { amount_tolerance_percent := 5, exact_match_bonus := 20 }
        []).match_datasets [{ Description := "a", Amount := 5 }]
          [{ Description := "a 5", Code := "R1" }]).2.get_audit_log.map
        AuditRecord.Matched_Code :=
  c4_result_audit_alignment
    (FuzzyMatcher.mk 70 { amount_tolerance_percent := 5, exact_match_bonus := 20 } [])
    [{ Description := "a", Amount := 5 }] [{ Description := "a 5", Code := "R1" }]

/-! ## Claim C10 -/

/-- C10: `find_best_match` leaves the matcher's state (threshold, scorer
configuration and accumulated audit sequence) unchanged; `match_datasets`
preserves the threshold and scorer, and its outcome — result table and
final audit sequence alike — does not depend on the audit records
accumulated before the call (the audit sequence is reset at the start of
the run and appended to only inside `match_datasets`). -/
theorem c10_find_best_match_frame (m m' : FuzzyMatcher) (d : String) (a : ℚ)
    (refs : List RefRow) (src : List SourceRow) :
    (m.find_best_match d a refs).2 = m ∧
    (m.match_datasets src refs).2.threshold = m.threshold ∧
    (m.match_datasets src refs).2.scorer = m.scorer ∧
    (m'.threshold = m.threshold → m'.scorer = m.scorer →
      m'.match_datasets src refs = m.match_datasets src refs) := by
  refine ⟨find_best_match_snd m d a refs, ?_, ?_, ?_⟩
  · unfold FuzzyMatcher.match_datasets
    dsimp only
    exact (foldl_matchStep_spec refs src ([], { m with audit_records := [] })).2.2.2.1
  · unfold FuzzyMatcher.match_datasets
    dsimp only
    exact (foldl_matchStep_spec refs src ([], { m with audit_records := [] })).2.2.2.2
  · intro ht hs
    unfold FuzzyMatcher.match_datasets
    dsimp only
    rw [ht, hs]

/-- Witness for C10: two matchers sharing threshold and scorer but with
different pre-existing audit sequences produce identical `match_datasets`
outcomes. -/
theorem c10_find_best_match_frame_witness :
    ((FuzzyMatcher.mk 70 { amount_tolerance_percent := 5, exact_match_bonus := 20 }
        []).find_best_match "a" 5 [{ Description := "a 5", Code := "R1" }]).2 =
      FuzzyMatcher.mk 70 { amount_tolerance_percent := 5, exact_match_bonus := 20 } [] ∧
    (FuzzyMatcher.mk 70 { amount_tolerance_percent := 5, exact_match_bonus := 20 }
        [{ Source_Description := "stale", Source_Amount := 0, Matched_Description := "",
           Matched_Code := "NO_MATCH", Text_Match_Score := 0, Numeric_Match := false,
           Final_Score := 0, Match_Type := "No Match",
           Explanation := "No match found above threshold" }]).match_datasets
        [{ Description := "a", Amount := 5 }] [{ Description := "a 5", Code := "R1" }] =
      (FuzzyMatcher.mk 70 { amount_tolerance_percent := 5, exact_match_bonus := 20 }
        []).match_datasets
        [{ Description := "a", Amount := 5 }] [{ Description := "a 5", Code := "R1" }] :=
  ⟨(c10_find_best_match_frame
      (FuzzyMatcher.mk 70 { amount_tolerance_percent := 5, exact_match_bonus := 20 } [])
      (FuzzyMatcher.mk 70 { amount_tolerance_percent := 5, exact_match_bonus := 20 } [])
      "a" 5 [{ Description := "a 5", Code := "R1" }]
      [{ Description := "a", Amount := 5 }]).1,
   (c10_find_best_match_frame
      (FuzzyMatcher.mk 70 { amount_tolerance_percent := 5, exact_match_bonus := 20 } [])
      (FuzzyMatcher.mk 70 { amount_tolerance_percent := 5, exact_match_bonus := 20 }
        [{ Source_Description := "stale", Source_Amount := 0, Matched_Description := "",
           Matched_Code := "NO_MATCH", Text_Match_Score := 0, Numeric_Match := false,
           Final_Score := 0, Match_Type := "No Match",
           Explanation := "No match found above threshold" }])
      "a" 5 [{ Description := "a 5", Code := "R1" }]
      [{ Description := "a", Amount := 5 }]).2.2.2 rfl rfl⟩

/-! ## Claim C8 -/

/-- C8: for every scorer configuration, source amount and reference
description from which `extract_numbers` returns the empty sequence,
`check_numeric_consistency` returns `(true, 0.0, no-numbers note)`: a
reference description with no numeric content is numerically neutral, never
penalized. -/
theorem c8_no_numbers_neutral (self : NumericAwareScorer) (source_amount : ℚ)
    (ref_description : String)
    (h : NumericAwareScorer.extract_numbers ref_description = []) :
    self.check_numeric_consistency source_amount ref_description =
      (true, 0, "No numbers in reference description") := by
  unfold NumericAwareScorer.check_numeric_consistency
  rw [h]
  rfl

/-- Witness for C8 at the spec's own example: `"no digits here"` contains no
number, and the check is neutral on it. -/
theorem c8_no_numbers_neutral_witness :
    NumericAwareScorer.extract_numbers "no digits here" = [] ∧
    NumericAwareScorer.check_numeric_consistency
        { amount_tolerance_percent := 5, exact_match_bonus := 20 } 100 "no digits here" =
      (true, 0, "No numbers in reference description") :=
  ⟨by with_unfolding_all decide,
   c8_no_numbers_neutral { amount_tolerance_percent := 5, exact_match_bonus := 20 } 100
     "no digits here" (by with_unfolding_all decide)⟩

/-! ## Claim C9 -/

/-- C9: `extract_numbers` is a pure function of its input text, and for
every text it returns exactly the values of a sequence of numeric literals
(optional leading minus, one or more digits, optional decimal point and
further digits) occurring in the text in left-to-right order: the text
decomposes into digit-free gaps alternating with those literals, one per
returned number, ending in a digit-free trailing gap (so every digit of
the text lies inside one of the extracted literals, and the output order
is the left-to-right order of their first digit).  In particular a text
with no digit run returns the empty sequence, a lone `"-"` with no
following digit is never matched (every literal contains at least one
digit), and a digit run preceded by letters is still extracted
(`"Q1"` yields `1`). -/
theorem c9_extract_numbers_spec :
    (∀ s : String, ∃ (segs : List NumSeg) (tail : List Char),
      s.data = glue segs tail ∧
      NumericAwareScorer.extract_numbers s = segs.map NumSeg.val ∧
      (∀ seg ∈ segs, IsNumLit seg.tok seg.val ∧ ∀ x ∈ seg.gap, x.isDigit = false) ∧
      (∀ x ∈ tail, x.isDigit = false)) ∧
    (∀ s : String, (∀ c ∈ s.data, ¬ c.isDigit = true) →
      NumericAwareScorer.extract_numbers s = []) ∧
    NumericAwareScorer.extract_numbers "-" = [] ∧
    NumericAwareScorer.extract_numbers "Q1" = [1] ∧
    NumericAwareScorer.extract_numbers "Multiple 10 numbers 20.5 here 30" =
      [10, 41 / 2, 30] ∧
    NumericAwareScorer.extract_numbers "7 150 -3" = [7, 150, -3] := by
  refine ⟨fun s => findNums_decomp s.data,
    fun s h => findNums_eq_nil_of_no_digit s.data h, ?_, ?_, ?_, ?_⟩
  · with_unfolding_all decide
  · with_unfolding_all decide
  · with_unfolding_all decide
  · with_unfolding_all decide

/-- Witness for C9: the decomposition clause instantiated at the concrete
text `"7 150 -3"`, and the no-digit clause applied to the concrete
digit-free text `"--ab c--"`. -/
theorem c9_extract_numbers_spec_witness :
    (∃ (segs : List NumSeg) (tail : List Char),
      ("7 150 -3" : String).data = glue segs tail ∧
      NumericAwareScorer.extract_numbers "7 150 -3" = segs.map NumSeg.val ∧
      (∀ seg ∈ segs, IsNumLit seg.tok seg.val ∧ ∀ x ∈ seg.gap, x.isDigit = false) ∧
      (∀ x ∈ tail, x.isDigit = false)) ∧
    NumericAwareScorer.extract_numbers "--ab c--" = [] :=
  ⟨c9_extract_numbers_spec.1 "7 150 -3",
   c9_extract_numbers_spec.2.1 "--ab c--" (by with_unfolding_all decide)⟩

end FuzzyPipeline
